import Mathlib

/-!
Verification of the metadata server's normalizer, resolver, cache, ownership
and explore components, shallowly embedded from the TypeScript source.

JavaScript objects used as string-keyed maps are embedded as association
lists `List (String × α)`.  A property whose value may be `undefined` is
given type `Option α` in the value slot, so that `jsAccess` models the JS
property read (which yields `undefined` both for a missing key and for a
key stored with value `undefined`).
-/

namespace Server

abbrev RoleList := List String

abbrev JsMap (α : Type) := List (String × α)

/-- JS property read on an association list: first binding wins. -/
def jsGet {α : Type} : JsMap α → String → Option α
  | [], _ => none
  | (k, v) :: rest, key => if k = key then some v else jsGet rest key

/-- JS property write: overwrite the first binding of the key, else append. -/
def jsSet {α : Type} : JsMap α → String → α → JsMap α
  | [], key, val => [(key, val)]
  | (k, v) :: rest, key, val =>
      if k = key then (key, val) :: rest else (k, v) :: jsSet rest key val

/-- Keys of a JS object, in insertion order. -/
def jsKeys {α : Type} (m : JsMap α) : List String := m.map Prod.fst

/-- JS read on a map whose values may themselves be `undefined`:
`undefined` results both from a missing key and from an `undefined` value. -/
def jsAccess {α : Type} (m : JsMap (Option α)) (key : String) : Option α :=
  (jsGet m key).join

/--
`IPerson`, as stored: per-context maps keyed by the owning
DigitalEntity/PhysicalEntity id (`roles`, `institutions`,
`contact_references`), mirroring `src/services/mongo.ts` (resolving
strategies part).  Institution references inside `institutions` and the
contact value are kept abstract as strings.
-/
structure IPerson where
  pid : String
  roles : JsMap (Option RoleList)
  institutions : JsMap (Option (List String))
  contact_references : JsMap (Option String)
deriving DecidableEq, Repr

/-- `IInstitution`, as stored: `roles`, `addresses`, `notes` keyed by
owning-context id. -/
structure IInstitution where
  iid : String
  roles : JsMap (Option RoleList)
  addresses : JsMap (Option String)
  notes : JsMap (Option String)
deriving DecidableEq, Repr

/--
One map-collapse step of `removeUnrelatedEntities` (mongo.ts lines 731-754):
`const related = obj.m[entityId]; obj.m = {}; obj.m[entityId] = related;`.
The result always has exactly the key `entityId`, bound to the old JS read
(possibly `undefined`).
-/
def collapseTo {α : Type} (m : JsMap (Option α)) (entityId : String) :
    JsMap (Option α) :=
  [(entityId, jsAccess m entityId)]

/-- `removeUnrelatedEntities` on a Person (the `isPerson` branch). -/
def removeUnrelatedPerson (p : IPerson) (entityId : String) : IPerson :=
  { p with
    roles := collapseTo p.roles entityId
    institutions := collapseTo p.institutions entityId
    contact_references := collapseTo p.contact_references entityId }

/-- `removeUnrelatedEntities` on an Institution (the `isInstitution` branch). -/
def removeUnrelatedInstitution (inst : IInstitution) (entityId : String) :
    IInstitution :=
  { inst with
    roles := collapseTo inst.roles entityId
    addresses := collapseTo inst.addresses entityId
    notes := collapseTo inst.notes entityId }

/--
The per-person body of `resolveMetaDataEntity` (mongo.ts lines 805-818):
after `removeUnrelatedEntities`, `roles` is always an object (so the
`!entity.persons[i].roles` branch is dead), and a missing/`undefined`
`roles[_id]` entry is replaced by the empty list.  A stored empty list is
truthy in JS (`![]` is `false`) and is kept as-is.
-/
def resolveMetaPerson (p : IPerson) (entityId : String) : IPerson :=
  match jsAccess (removeUnrelatedPerson p entityId).roles entityId with
  | some _ => removeUnrelatedPerson p entityId
  | none =>
      { removeUnrelatedPerson p entityId with
        roles := jsSet (removeUnrelatedPerson p entityId).roles entityId (some []) }

/--
The `entity.persons` loop of `resolveMetaDataEntity`: each person reference
is fetched (`Mongo.resolve(..., 'person')`); on a failed fetch the raw
reference is kept (`continue`), otherwise the person is context-collapsed
and its `roles[_id]` entry defaulted.
-/
def resolveMetaDataEntityPersons (find : String → Option IPerson)
    (entityId : String) (pids : List String) : List (String ⊕ IPerson) :=
  pids.map fun pid =>
    match find pid with
    | none => Sum.inl pid
    | some p => Sum.inr (resolveMetaPerson p entityId)

theorem jsGet_singleton_ne {α : Type} (eid k : String) (v : Option α)
    (h : k ≠ eid) : jsGet [(eid, v)] k = none := by
  have h2 : ¬eid = k := fun h3 => h h3.symm
  simp [jsGet, h2]

theorem jsAccess_singleton_self {α : Type} (eid : String) (a : Option α) :
    jsAccess [(eid, a)] eid = a := by
  simp [jsAccess, jsGet]

/-- The `roles` entry under the owning id after `resolveMetaDataEntity`
processed one person: defined, defaulting to the empty list. -/
theorem resolveMetaPerson_roles (p : IPerson) (eid : String) :
    jsAccess (resolveMetaPerson p eid).roles eid
      = some ((jsAccess p.roles eid).getD []) := by
  have base : (removeUnrelatedPerson p eid).roles = [(eid, jsAccess p.roles eid)] := rfl
  unfold resolveMetaPerson
  rw [base, jsAccess_singleton_self]
  cases h : jsAccess p.roles eid with
  | some r => rw [base, jsAccess_singleton_self, h]; rfl
  | none => simp [jsSet, jsAccess, jsGet]

/-- Claim C1: after `removeUnrelatedEntities` collapses a Person or an
Institution to an owning context id, each per-context map (`roles`,
`institutions`, `contact_references` for a Person; `roles`, `addresses`,
`notes` for an Institution) has exactly the owning id as its only key, and
any other context id reads back as absent. -/
theorem removeUnrelated_context_isolation (p : IPerson) (inst : IInstitution)
    (eid k : String) (hk : k ≠ eid) :
    jsKeys (removeUnrelatedPerson p eid).roles = [eid] ∧
    jsKeys (removeUnrelatedPerson p eid).institutions = [eid] ∧
    jsKeys (removeUnrelatedPerson p eid).contact_references = [eid] ∧
    jsKeys (removeUnrelatedInstitution inst eid).roles = [eid] ∧
    jsKeys (removeUnrelatedInstitution inst eid).addresses = [eid] ∧
    jsKeys (removeUnrelatedInstitution inst eid).notes = [eid] ∧
    jsGet (removeUnrelatedPerson p eid).roles k = none ∧
    jsGet (removeUnrelatedPerson p eid).institutions k = none ∧
    jsGet (removeUnrelatedPerson p eid).contact_references k = none ∧
    jsGet (removeUnrelatedInstitution inst eid).roles k = none ∧
    jsGet (removeUnrelatedInstitution inst eid).addresses k = none ∧
    jsGet (removeUnrelatedInstitution inst eid).notes k = none := by
  refine ⟨rfl, rfl, rfl, rfl, rfl, rfl, ?_, ?_, ?_, ?_, ?_, ?_⟩ <;>
    exact jsGet_singleton_ne _ _ _ hk

/-- Witness for C1: a shared person with roles under contexts `A` and `B`,
collapsed under `A`, keeps only the `A` entry; context `B` is gone. -/
theorem removeUnrelated_context_isolation_witness :
    jsKeys (removeUnrelatedPerson
        ⟨"p1", [("A", some ["AUTHOR"]), ("B", some ["EDITOR"])], [], []⟩
        "A").roles = ["A"] ∧
    jsGet (removeUnrelatedPerson
        ⟨"p1", [("A", some ["AUTHOR"]), ("B", some ["EDITOR"])], [], []⟩
        "A").roles "B" = none := by
  have h := removeUnrelated_context_isolation
    ⟨"p1", [("A", some ["AUTHOR"]), ("B", some ["EDITOR"])], [], []⟩
    ⟨"i1", [], [], []⟩ "A" "B" (by decide)
  exact ⟨h.1, h.2.2.2.2.2.2.1⟩

/-- Claim C9: every person that resolves successfully inside
`resolveMetaDataEntity` comes out of `resolveMetaPerson`, and its `roles`
map has a defined entry under the owning entity id, equal to the stored
role list when one existed and to the empty list otherwise. -/
theorem resolveMetaDataEntity_roles_defaulted (find : String → Option IPerson)
    (entityId : String) (pids : List String) (q : IPerson)
    (hq : Sum.inr q ∈ resolveMetaDataEntityPersons find entityId pids) :
    ∃ p : IPerson, q = resolveMetaPerson p entityId ∧
      jsAccess q.roles entityId = some ((jsAccess p.roles entityId).getD []) := by
  simp only [resolveMetaDataEntityPersons, List.mem_map] at hq
  obtain ⟨pid, _, hpid⟩ := hq
  cases hfind : find pid with
  | none => rw [hfind] at hpid; cases hpid
  | some p =>
      rw [hfind] at hpid
      refine ⟨p, (Sum.inr.inj hpid).symm, ?_⟩
      rw [← Sum.inr.inj hpid]
      exact resolveMetaPerson_roles p entityId

/-- Witness for C9: a stored person with no role entry under the owning
context resolves with `roles` defaulted to the empty list there. -/
theorem resolveMetaDataEntity_roles_defaulted_witness :
    (Sum.inr (resolveMetaPerson ⟨"p1", [], [], []⟩ "A") ∈
      resolveMetaDataEntityPersons (fun _ => some ⟨"p1", [], [], []⟩) "A" ["p1"]) ∧
    ∃ p : IPerson, resolveMetaPerson ⟨"p1", [], [], []⟩ "A" = resolveMetaPerson p "A" ∧
      jsAccess (resolveMetaPerson ⟨"p1", [], [], []⟩ "A").roles "A"
        = some ((jsAccess p.roles "A").getD []) := by
  refine ⟨List.Mem.head _, ?_⟩
  exact resolveMetaDataEntity_roles_defaulted (fun _ => some ⟨"p1", [], [], []⟩)
    "A" ["p1"] (resolveMetaPerson ⟨"p1", [], [], []⟩ "A") (List.Mem.head _)

theorem jsGet_jsSet_self {α : Type} (m : JsMap α) (k : String) (v : α) :
    jsGet (jsSet m k v) k = some v := by
  induction m with
  | nil => simp [jsSet, jsGet]
  | cons hd tl ih =>
      obtain ⟨k1, v1⟩ := hd
      by_cases hk : k1 = k <;> simp [jsSet, jsGet, hk, ih]

theorem jsGet_jsSet_ne {α : Type} (m : JsMap α) (k k2 : String) (v : α)
    (h : k2 ≠ k) : jsGet (jsSet m k v) k2 = jsGet m k2 := by
  have h2 : ¬k = k2 := fun h3 => h h3.symm
  induction m with
  | nil => simp [jsSet, jsGet, h2]
  | cons hd tl ih =>
      obtain ⟨k1, v1⟩ := hd
      by_cases hk : k1 = k
      · subst hk; simp [jsSet, jsGet, h2]
      · by_cases hk2 : k1 = k2
        · subst hk2; simp [jsSet, jsGet, hk, h2]
        · simp [jsSet, jsGet, hk, hk2, ih]

/-- JS object spread `{...a, ...b}`: `a`'s keys in insertion order with `b`'s
values winning on shared keys, then `b`'s remaining keys. -/
def spreadMerge {α : Type} (a b : JsMap α) : JsMap α :=
  (a.map fun kv =>
    match jsGet b kv.1 with
    | some v => (kv.1, v)
    | none => kv)
  ++ b.filter fun kv => (jsGet a kv.1).isNone

theorem jsGet_append {α : Type} (l1 l2 : JsMap α) (k : String) :
    jsGet (l1 ++ l2) k
      = match jsGet l1 k with
        | some v => some v
        | none => jsGet l2 k := by
  induction l1 with
  | nil => rfl
  | cons hd tl ih =>
      obtain ⟨k1, v1⟩ := hd
      by_cases hk : k1 = k <;> simp [jsGet, hk, ih]

theorem jsGet_spreadMap {α : Type} (a b : JsMap α) (k : String) :
    jsGet (a.map fun kv =>
        match jsGet b kv.1 with
        | some v => (kv.1, v)
        | none => kv) k
      = match jsGet a k with
        | none => none
        | some w =>
            match jsGet b k with
            | some v => some v
            | none => some w := by
  induction a with
  | nil => rfl
  | cons hd tl ih =>
      obtain ⟨k1, v1⟩ := hd
      by_cases hk : k1 = k
      · subst hk; cases hb : jsGet b k1 <;> simp [jsGet, hb]
      · cases hb : jsGet b k1 <;> simp [jsGet, hk, hb, ih]

theorem jsGet_filterAbsent {α : Type} (a b : JsMap α) (k : String)
    (ha : jsGet a k = none) :
    jsGet (b.filter fun kv => (jsGet a kv.1).isNone) k = jsGet b k := by
  induction b with
  | nil => rfl
  | cons hd tl ih =>
      obtain ⟨k1, v1⟩ := hd
      by_cases hk : k1 = k
      · subst hk; simp [List.filter_cons, jsGet, ha, ih]
      · cases h1 : (jsGet a k1).isNone <;>
          simp [List.filter_cons, jsGet, hk, h1, ih]

/-- In `{...a, ...b}`, a key bound in `b` reads back with `b`'s value. -/
theorem jsGet_spreadMerge_right {α : Type} (a b : JsMap α) (k : String) (v : α)
    (hb : jsGet b k = some v) : jsGet (spreadMerge a b) k = some v := by
  unfold spreadMerge
  rw [jsGet_append, jsGet_spreadMap]
  cases ha : jsGet a k with
  | some w => simp [hb]
  | none => simp [jsGet_filterAbsent a b k ha, hb]

/--
The role update of `savePerson`/`saveInstitution` inside `saveMetaDataEntity`
(saving strategies, later version):
`if (resolved) person.roles = { ...person.roles, ...resolved.roles };`
`if (!person.roles) person.roles = {};`
`person.roles[id] = person.role;`
`resolvedRoles` is the stored record's `roles` (absent when no record was
found), `submittedRoles` the submitted `roles`, `personRole` the submitted
`role`, `ctxId` the owning entity's id.
-/
def savePersonRoles (resolvedRoles : Option (JsMap RoleList))
    (submittedRoles : Option (JsMap RoleList)) (personRole : RoleList)
    (ctxId : String) : JsMap RoleList :=
  let roles1 : Option (JsMap RoleList) :=
    match resolvedRoles with
    | some st => some (spreadMerge (submittedRoles.getD []) st)
    | none => submittedRoles
  jsSet (roles1.getD []) ctxId personRole

/-- The fields of a person/institution document that the role logic of
`addAndGetId` (earlier saving strategy inside `saveDigitalEntity`) touches. -/
structure PIField where
  roles : Option (JsMap RoleList)
  person_role : Option RoleList
  institution_role : Option RoleList
deriving DecidableEq, Repr

/-- `field = { ...findResult, ...field }`: submitted properties win. -/
def mergeFindResult (findResult : Option PIField) (in_field : PIField) :
    PIField :=
  match findResult with
  | none => in_field
  | some st =>
      { roles :=
          match in_field.roles with
          | some r => some r
          | none => st.roles
        person_role :=
          match in_field.person_role with
          | some r => some r
          | none => st.person_role
        institution_role :=
          match in_field.institution_role with
          | some r => some r
          | none => st.institution_role }

/-- `Array.from(new Set(...))`: deduplicate keeping first occurrences. -/
def dedupAux (seen : List String) : List String → List String
  | [] => []
  | x :: xs =>
      if x ∈ seen then dedupAux seen xs else x :: dedupAux (x :: seen) xs

/--
One iteration of `for (const prop of ['institution_role', 'person_role'])`
in `addAndGetId`: skipped when the property is absent (`if (!field[prop])
continue`; a present empty array is truthy and is processed), otherwise the
context's role list becomes `flatten([field['roles'][_digId], field[prop]])`
when roles pre-existed (else just the new roles), deduplicated, and the
property is reset to `[]`.
-/
def rolePropStep (doRolesExist : Bool) (new_roles : Option RoleList)
    (digId : String) (propVal : Option RoleList) (roles : JsMap RoleList) :
    JsMap RoleList × Option RoleList :=
  match propVal with
  | none => (roles, none)
  | some pr =>
      let pr2 := match new_roles with | some nr => nr | none => pr
      let merged :=
        if doRolesExist then (jsGet roles digId).getD [] ++ pr2 else pr2
      (jsSet roles digId (dedupAux [] merged), some [])

/--
The person/institution role logic of `addAndGetId` in the earlier
`saveDigitalEntity` strategy (saving strategies, first version, lines
202-262): merge the stored document under the submitted one, default the
context entry, fold in `institution_role` then `person_role`, and finally
drop falsy (empty-string) roles.
-/
def addAndGetIdRoles (findResult : Option PIField) (in_field : PIField)
    (new_roles : Option RoleList) (digId : String) : PIField :=
  let field := mergeFindResult findResult in_field
  let doRolesExist := field.roles.isSome
  let roles0 := field.roles.getD []
  let roles1 := jsSet roles0 digId ((jsGet roles0 digId).getD [])
  let step1 := rolePropStep doRolesExist new_roles digId field.institution_role roles1
  let step2 := rolePropStep doRolesExist new_roles digId field.person_role step1.1
  let roles4 := jsSet step2.1 digId
    (((jsGet step2.1 digId).getD []).filter fun s => s != "")
  { roles := some roles4
    person_role := match field.person_role with
                   | none => field.person_role
                   | some _ => step2.2
    institution_role := match field.institution_role with
                        | none => field.institution_role
                        | some _ => step1.2 }

/-- Claim C2 counterexample: a person stored with `roles = {A: ["AUTHOR"]}`
re-saved under context `A` with submitted role `["EDITOR"]` through the
`saveDigitalEntity` `addAndGetId` strategy ends with
`roles[A] = ["AUTHOR","EDITOR"]`, not the submitted `["EDITOR"]`. -/
theorem addAndGetId_merges_roles_cex :
    jsGet ((addAndGetIdRoles
        (some ⟨some [("A", ["AUTHOR"])], none, none⟩)
        ⟨none, some ["EDITOR"], none⟩ none "A").roles.getD []) "A"
      = some ["AUTHOR", "EDITOR"] ∧
    (["AUTHOR", "EDITOR"] : RoleList) ≠ ["EDITOR"] := by
  exact ⟨by decide, by decide⟩

/-- Claim C2 (amended): re-saving context C through `saveMetaDataEntity`'s
`savePerson` sets `P.roles[C]` to exactly the submitted list, and stored
entries of other contexts survive; but through the earlier
`saveDigitalEntity` `addAndGetId` strategy the submitted roles are appended
to the stored list for C and deduplicated (other contexts again untouched). -/
theorem roles_replace_vs_merge (st : JsMap RoleList)
    (sub : Option (JsMap RoleList)) (r old pr : RoleList) (ctx : String)
    (m : JsMap RoleList) (hv : jsGet m ctx = some old) :
    (∀ stOpt : Option (JsMap RoleList),
        jsGet (savePersonRoles stOpt sub r ctx) ctx = some r) ∧
    (∀ k v, k ≠ ctx → jsGet st k = some v →
        jsGet (savePersonRoles (some st) sub r ctx) k = some v) ∧
    jsGet ((addAndGetIdRoles (some ⟨some m, none, none⟩)
        ⟨none, some pr, none⟩ none ctx).roles.getD []) ctx
      = some ((dedupAux [] (old ++ pr)).filter fun s => s != "") ∧
    (∀ k v, k ≠ ctx → jsGet m k = some v →
        jsGet ((addAndGetIdRoles (some ⟨some m, none, none⟩)
            ⟨none, some pr, none⟩ none ctx).roles.getD []) k = some v) := by
  refine ⟨?_, ?_, ?_, ?_⟩
  · intro stOpt
    unfold savePersonRoles
    exact jsGet_jsSet_self _ ctx r
  · intro k v hk hst
    unfold savePersonRoles
    rw [jsGet_jsSet_ne _ ctx k r hk]
    exact jsGet_spreadMerge_right _ st k v hst
  · have e1 : addAndGetIdRoles (some ⟨some m, none, none⟩)
        ⟨none, some pr, none⟩ none ctx
        = { roles := some (jsSet (rolePropStep true none ctx (some pr)
              (jsSet m ctx ((jsGet m ctx).getD []))).1 ctx
              (((jsGet (rolePropStep true none ctx (some pr)
                  (jsSet m ctx ((jsGet m ctx).getD []))).1 ctx).getD []).filter
                fun s => s != ""))
            person_role := some []
            institution_role := none } := rfl
    have e2 : ∀ r1 : JsMap RoleList, (rolePropStep true none ctx (some pr) r1).1
        = jsSet r1 ctx (dedupAux [] ((jsGet r1 ctx).getD [] ++ pr)) :=
      fun _ => rfl
    rw [e1]
    simp only [Option.getD_some]
    rw [e2, jsGet_jsSet_self, jsGet_jsSet_self, jsGet_jsSet_self, hv]
    simp only [Option.getD_some]
  · intro k v hk hm
    have e1 : addAndGetIdRoles (some ⟨some m, none, none⟩)
        ⟨none, some pr, none⟩ none ctx
        = { roles := some (jsSet (rolePropStep true none ctx (some pr)
              (jsSet m ctx ((jsGet m ctx).getD []))).1 ctx
              (((jsGet (rolePropStep true none ctx (some pr)
                  (jsSet m ctx ((jsGet m ctx).getD []))).1 ctx).getD []).filter
                fun s => s != ""))
            person_role := some []
            institution_role := none } := rfl
    have e2 : ∀ r1 : JsMap RoleList, (rolePropStep true none ctx (some pr) r1).1
        = jsSet r1 ctx (dedupAux [] ((jsGet r1 ctx).getD [] ++ pr)) :=
      fun _ => rfl
    rw [e1]
    simp only [Option.getD_some]
    rw [e2, jsGet_jsSet_ne _ ctx k _ hk, jsGet_jsSet_ne _ ctx k _ hk,
      jsGet_jsSet_ne _ ctx k _ hk]
    exact hm

/-- Witness for the amended C2: replace semantics in `savePerson`, merge
semantics in `addAndGetId`, at the spec's own example. -/
theorem roles_replace_vs_merge_witness :
    jsGet (savePersonRoles (some [("A", ["AUTHOR"])]) none ["EDITOR"] "A") "A"
      = some ["EDITOR"] ∧
    jsGet ((addAndGetIdRoles (some ⟨some [("A", ["AUTHOR"])], none, none⟩)
        ⟨none, some ["EDITOR"], none⟩ none "A").roles.getD []) "A"
      = some ((dedupAux [] (["AUTHOR"] ++ ["EDITOR"])).filter fun s => s != "") := by
  have h := roles_replace_vs_merge [("A", ["AUTHOR"])] none ["EDITOR"]
    ["AUTHOR"] ["EDITOR"] "A" [("A", ["AUTHOR"])] (by decide)
  exact ⟨h.1 (some [("A", ["AUTHOR"])]), h.2.2.1⟩

/-- `annotation.target.source`. -/
structure AnnSource where
  relatedEntity : Option String
  relatedCompilation : Option String
deriving DecidableEq, Repr

inductive SaveResult where
  | rejectedRes (message : String)
  | acceptedRes
deriving DecidableEq, Repr

/--
The validation and permission gate of `saveAnnotation` (saving strategies,
lines 57-115).  `owns` is `Mongo.isUserOwnerOfEntity` for the requester,
`annFind` resolves a stored annotation to its body, `isValidId` is
`ObjectId.isValid`.  Annotation bodies are abstracted to numbers; the
source compares `oldAnnotation.body === annotation.body`, a JS reference
equality (strictly finer than the structural equality used here, so in the
source the reject branch fires on even fewer submissions).  `acceptedRes`
stands for falling through to the timestamp/list-update code.
-/
def saveAnnotationGate (owns : String → Bool) (annFind : String → Option Nat)
    (isValidId : String → Bool) (doesEntityExist : Bool) (annId : String)
    (source : Option AnnSource) (hasRelatedPerspective : Bool) (body : Nat) :
    SaveResult :=
  let isAnnotationOwner := if doesEntityExist then owns annId else true
  match source with
  | none => .rejectedRes "Invalid annotation"
  | some src =>
      if !hasRelatedPerspective then
        .rejectedRes "Missing body.content.relatedPerspective"
      else
        match src.relatedEntity, src.relatedCompilation with
        | none, _ => .rejectedRes "Related entity or compilation undefined"
        | some _, none => .rejectedRes "Related entity or compilation undefined"
        | some relatedEntityId, some relatedCompId =>
            let validCompilation := isValidId relatedCompId
            if !(isValidId relatedEntityId) then
              .rejectedRes "Invalid related entity id"
            else if !validCompilation && !(owns relatedEntityId) then
              .rejectedRes "Permission denied"
            else if !isAnnotationOwner then
              if owns relatedCompId then
                match annFind annId with
                | some oldBody =>
                    if oldBody == body then .rejectedRes "Permission denied"
                    else .acceptedRes
                | none => .acceptedRes
              else .rejectedRes "Permission denied"
            else .acceptedRes

/-- Claim C3: the compilation-owner body check of `saveAnnotation` is
inverted.  A requester who owns the target compilation but not the stored
annotation is rejected when resubmitting the stored body unchanged, and
accepted when submitting a different body — the opposite of the source's
own comment (`Compilation owner is not supposed to change the annotation
body`) and of the spec. -/
theorem saveAnnotation_body_gate_inverted :
    saveAnnotationGate (fun s => s == "comp1")
      (fun s => if s == "ann1" then some 5 else none) (fun _ => true)
      true "ann1" (some ⟨some "ent1", some "comp1"⟩) true 5
      = SaveResult.rejectedRes "Permission denied" ∧
    saveAnnotationGate (fun s => s == "comp1")
      (fun s => if s == "ann1" then some 5 else none) (fun _ => true)
      true "ann1" (some ⟨some "ent1", some "comp1"⟩) true 6
      = SaveResult.acceptedRes := by
  exact ⟨by decide, by decide⟩

/-- The `RepoCache` key/value store. -/
structure RepoCacheM where
  entries : List (String × Nat)
deriving DecidableEq, Repr

/-- `RepoCache.flush()`. -/
def flushCache (_ : RepoCacheM) : RepoCacheM := ⟨[]⟩

/--
`addEntityToCollection` (utility.ts lines 252-315) for an annotation
submission: `RepoCache.flush()` is its first statement, before any
validation or saving; a rejected saving strategy sends the error
(`res.headersSent` short-circuits the rest); an accepted one upserts the
document, which fails with a storage error when the write is not
acknowledged.
-/
def addEntityToCollection (cache : RepoCacheM) (owns : String → Bool)
    (annFind : String → Option Nat) (isValidId : String → Bool)
    (doesEntityExist : Bool) (annId : String) (source : Option AnnSource)
    (hasRelatedPerspective : Bool) (body : Nat) (updateAcknowledged : Bool) :
    RepoCacheM × Except String String :=
  let cache1 := flushCache cache
  match saveAnnotationGate owns annFind isValidId doesEntityExist annId source
      hasRelatedPerspective body with
  | .rejectedRes msg => (cache1, .error msg)
  | .acceptedRes =>
      if updateAcknowledged then (cache1, .ok annId)
      else (cache1, .error "Failed updating")

/-- Claim C5 counterexample: a permission-denied save still leaves the
cache flushed — the non-empty cache is emptied even though the mutation
failed and was surfaced as an error. -/
theorem cache_flushed_on_failed_save_cex :
    (addEntityToCollection ⟨[("e1", 7)]⟩ (fun _ => false) (fun _ => none)
        (fun _ => true) true "ann1" (some ⟨some "ent1", some "comp1"⟩)
        true 5 true).1 = flushCache ⟨[("e1", 7)]⟩ ∧
    (addEntityToCollection ⟨[("e1", 7)]⟩ (fun _ => false) (fun _ => none)
        (fun _ => true) true "ann1" (some ⟨some "ent1", some "comp1"⟩)
        true 5 true).2 = Except.error "Permission denied" ∧
    (⟨[("e1", 7)]⟩ : RepoCacheM) ≠ flushCache ⟨[("e1", 7)]⟩ := by
  exact ⟨rfl, rfl, by decide⟩

/-- Claim C5 (amended): errors (validation, permission, unacknowledged
write) are surfaced to the caller, but the cache is flushed unconditionally
at the start of `addEntityToCollection`, before validation and saving, so
the flush happens on failed mutations too. -/
theorem addEntity_flush_unconditional (cache : RepoCacheM)
    (owns : String → Bool) (annFind : String → Option Nat)
    (isValidId : String → Bool) (doesEntityExist : Bool) (annId : String)
    (source : Option AnnSource) (hasRelatedPerspective : Bool) (body : Nat)
    (updateAcknowledged : Bool) :
    (addEntityToCollection cache owns annFind isValidId doesEntityExist annId
        source hasRelatedPerspective body updateAcknowledged).1
      = flushCache cache ∧
    (∀ msg, saveAnnotationGate owns annFind isValidId doesEntityExist annId
        source hasRelatedPerspective body = .rejectedRes msg →
      (addEntityToCollection cache owns annFind isValidId doesEntityExist annId
          source hasRelatedPerspective body updateAcknowledged).2
        = .error msg) ∧
    (saveAnnotationGate owns annFind isValidId doesEntityExist annId
        source hasRelatedPerspective body = .acceptedRes →
      updateAcknowledged = false →
      (addEntityToCollection cache owns annFind isValidId doesEntityExist annId
          source hasRelatedPerspective body updateAcknowledged).2
        = .error "Failed updating") := by
  unfold addEntityToCollection
  cases hgate : saveAnnotationGate owns annFind isValidId doesEntityExist annId
      source hasRelatedPerspective body with
  | rejectedRes msg =>
      refine ⟨rfl, ?_, ?_⟩
      · intro msg2 h2
        rw [SaveResult.rejectedRes.inj h2]
      · intro h2; cases h2
  | acceptedRes =>
      refine ⟨?_, ?_, ?_⟩
      · cases updateAcknowledged <;> rfl
      · intro msg2 h2; cases h2
      · intro _ hack; rw [hack]; rfl

/-- Witness for the amended C5: at the permission-denied input the error is
surfaced and the cache equals the flushed cache. -/
theorem addEntity_flush_unconditional_witness :
    (addEntityToCollection ⟨[("e1", 7)]⟩ (fun _ => false) (fun _ => none)
        (fun _ => true) true "ann1" (some ⟨some "ent1", some "comp1"⟩)
        true 5 true).1 = flushCache ⟨[("e1", 7)]⟩ ∧
    (addEntityToCollection ⟨[("e1", 7)]⟩ (fun _ => false) (fun _ => none)
        (fun _ => true) true "ann1" (some ⟨some "ent1", some "comp1"⟩)
        true 5 true).2 = Except.error "Permission denied" := by
  have h := addEntity_flush_unconditional ⟨[("e1", 7)]⟩ (fun _ => false)
    (fun _ => none) (fun _ => true) true "ann1"
    (some ⟨some "ent1", some "comp1"⟩) true 5 true
  exact ⟨h.1, h.2.1 "Permission denied" (by decide)⟩

/-- JS truthiness of a number (`NaN` aside): nonzero. -/
def jsNumTruthy (d : Int) : Bool := d != 0

/-- The shallow-stop guard of `resolve` (utility.ts line 356):
`if (depth && depth === 0) return resolve_result;` with `depth` an optional
number, `undefined` being falsy. -/
def shallowGuard (depth : Option Int) : Bool :=
  match depth with
  | none => false
  | some d => jsNumTruthy d && (d == 0)

inductive AnnSlot where
  | unresolvedSlot
  | resolvedSlot (body : Nat)
deriving DecidableEq, Repr

structure CompilationDoc where
  cname : String
  annotations : List (String × AnnSlot)
deriving DecidableEq, Repr

inductive RepoDoc where
  | compilationDoc (c : CompilationDoc)
  | plainDoc (n : Nat)
deriving DecidableEq, Repr

/-- The annotation loop of `resolveCompilation`: unresolvable ids are
deleted from the map, resolvable ones replaced by the fetched document. -/
def resolveCompAnnotations (annFind : String → Option Nat)
    (m : List (String × AnnSlot)) : List (String × AnnSlot) :=
  m.filterMap fun kv =>
    match annFind kv.1 with
    | none => none
    | some b => some (kv.1, AnnSlot.resolvedSlot b)

/-- The discriminated strategy dispatch of `resolve` after fetching
(`isCompilation` branch shown; unknown shapes pass through). -/
def applyStrategy (annFind : String → Option Nat) : RepoDoc → RepoDoc
  | .compilationDoc c =>
      .compilationDoc ⟨c.cname, resolveCompAnnotations annFind c.annotations⟩
  | .plainDoc n => .plainDoc n

/-- `resolve(obj, coll, depth)` (utility.ts lines 335-379), cache path
aside: fetch the record, return it raw if the shallow guard fires, else
apply the matching resolving strategy. -/
def resolveFn (find : String → Option RepoDoc) (annFind : String → Option Nat)
    (id : String) (depth : Option Int) : Option RepoDoc :=
  match find id with
  | none => none
  | some doc =>
      if shallowGuard depth then some doc
      else some (applyStrategy annFind doc)

/-- Claim C4: `depth && depth === 0` is falsy for every depth (for `0` the
first conjunct is falsy), so `resolve` never takes the shallow stop; at
depth 0 a stored compilation still comes back with its annotation map
hydrated instead of raw. -/
theorem resolve_depth_zero_never_shallow :
    (∀ depth : Option Int, shallowGuard depth = false) ∧
    resolveFn
      (fun s => if s == "c1" then
          some (.compilationDoc ⟨"c1", [("a1", .unresolvedSlot)]⟩) else none)
      (fun s => if s == "a1" then some 7 else none) "c1" (some 0)
      = some (.compilationDoc ⟨"c1", [("a1", .resolvedSlot 7)]⟩) ∧
    RepoDoc.compilationDoc ⟨"c1", [("a1", AnnSlot.resolvedSlot 7)]⟩
      ≠ RepoDoc.compilationDoc ⟨"c1", [("a1", AnnSlot.unresolvedSlot)]⟩ := by
  refine ⟨?_, by decide, by decide⟩
  intro depth
  cases depth with
  | none => rfl
  | some d =>
      by_cases h : d = 0
      · subst h; decide
      · simp [shallowGuard, jsNumTruthy, h]

/-- An element of a stored `annotationList`: `Sum.inl` a bare ObjectId,
`Sum.inr` a resolved annotation document represented by its `_id`.  A
`none` slot models a null entry, filtered away first. -/
def annEntryId : String ⊕ String → String := Sum.elim id id

/-- The projection of an `annotationList` to its id sequence (nulls
dropped, resolved documents replaced by their ids) — what the final `map`
of `updateAnnotationList` stores back. -/
def annListIds (lst : List (Option (String ⊕ String))) : List String :=
  (lst.filterMap id).map annEntryId

/--
`updateAnnotationList` (saving strategies, lines 11-38): default a missing
list, filter null slots, look the annotation id up via `toString`
comparison against both bare ids and resolved documents, push the id only
when absent, then map resolved documents back to their ObjectIds.
-/
def updateAnnotationList (lst : List (Option (String ⊕ String)))
    (annotationId : String) : List String :=
  if (lst.filterMap id).any (fun e => annEntryId e == annotationId) then
    (lst.filterMap id).map annEntryId
  else ((lst.filterMap id) ++ [Sum.inl annotationId]).map annEntryId

/-- Claim C6: appending to an `annotationList` has set semantics — a
present id (bare or inside a resolved document) leaves the id sequence
unchanged, an absent id is appended at the end, and a duplicate-free list
stays duplicate-free. -/
theorem updateAnnotationList_set_semantics
    (lst : List (Option (String ⊕ String))) (annotationId : String) :
    (annotationId ∈ annListIds lst →
      updateAnnotationList lst annotationId = annListIds lst) ∧
    (annotationId ∉ annListIds lst →
      updateAnnotationList lst annotationId
        = annListIds lst ++ [annotationId]) ∧
    ((annListIds lst).Nodup →
      (updateAnnotationList lst annotationId).Nodup) := by
  have hfound : ((lst.filterMap id).any fun e => annEntryId e == annotationId)
      = true ↔ annotationId ∈ annListIds lst := by
    unfold annListIds
    rw [List.any_eq_true]
    constructor
    · rintro ⟨e, he, hbe⟩
      exact List.mem_map.mpr ⟨e, he, by simpa using hbe⟩
    · intro hmem
      obtain ⟨e, he, heq⟩ := List.mem_map.mp hmem
      exact ⟨e, he, by simpa using heq⟩
  have hpos : annotationId ∈ annListIds lst →
      updateAnnotationList lst annotationId = annListIds lst := by
    intro hmem
    unfold updateAnnotationList
    rw [if_pos (hfound.mpr hmem)]
    rfl
  have hneg : annotationId ∉ annListIds lst →
      updateAnnotationList lst annotationId
        = annListIds lst ++ [annotationId] := by
    intro hmem
    unfold updateAnnotationList
    rw [if_neg (fun hc => hmem (hfound.mp hc)), List.map_append]
    rfl
  refine ⟨hpos, hneg, ?_⟩
  intro hnd
  by_cases hmem : annotationId ∈ annListIds lst
  · rw [hpos hmem]; exact hnd
  · rw [hneg hmem]
    refine List.Nodup.append hnd (List.nodup_singleton _) ?_
    intro x hx hx2
    rw [List.mem_singleton.mp hx2] at hx
    exact hmem hx

/-- Witness for C6: the spec's own example — appending id X to a list
already holding X leaves it unchanged. -/
theorem updateAnnotationList_set_semantics_witness :
    ("X" ∈ annListIds [some (Sum.inl "X")]) ∧
    updateAnnotationList [some (Sum.inl "X")] "X"
      = annListIds [some (Sum.inl "X")] := by
  refine ⟨by decide, ?_⟩
  exact (updateAnnotationList_set_semantics [some (Sum.inl "X")] "X").1 (by decide)

/-- An LDAP user account; `dataEntities` is the owned-id array
(`account.data.entity`, named `account.data.model` in the earlier
version). -/
structure LdapAccount where
  username : String
  dataEntities : List String
deriving DecidableEq, Repr

/-- Does this account own the entity?  The source tests
`JSON.stringify(userData.data.entity).indexOf(entityId) !== -1`; with
opaque distinct ObjectId strings this is membership. -/
def ownsEntity (a : LdapAccount) (entityId : String) : Bool :=
  decide (entityId ∈ a.dataEntities)

/-- `findAllEntityOwners`: every account whose owned-id data mentions the
entity. -/
def ownersOf (accounts : List LdapAccount) (entityId : String) :
    List LdapAccount :=
  accounts.filter fun a => ownsEntity a entityId

/-- `findOne` on the accounts collection followed by `updateOne`: rewrite
the first account matching the queried username. -/
def updateFirst (accounts : List LdapAccount) (target : String)
    (g : LdapAccount → LdapAccount) : List LdapAccount :=
  match accounts with
  | [] => []
  | a :: rest =>
      if a.username = target then g a :: rest
      else a :: updateFirst rest target g

/--
`applyActionToEntityOwner` (utility.ts lines 123-179) on the accounts
state (ObjectId well-formedness checks and the entity-existence probe are
upstream of this state and elided): reject unknown commands and unknown
accounts; `add` appends the id only when absent; `remove` is rejected when
the entity has exactly one owner overall, else the id is filtered out of
the target account's array.  The command is already confined to
`add`/`remove` by the first check, so the final branch covers `remove`.
-/
def applyActionToEntityOwner (accounts : List LdapAccount) (target : String)
    (command : String) (entityId : String) :
    Except String (List LdapAccount) :=
  if ¬(command = "add" ∨ command = "remove") then
    .error "Invalid command. Use add or remove"
  else
    match accounts.find? (fun a => a.username == target) with
    | none => .error "Incorrect owner _id or username given"
    | some _ =>
        if command = "add" then
          .ok (updateFirst accounts target fun a =>
            if ownsEntity a entityId then a
            else { a with dataEntities := a.dataEntities ++ [entityId] })
        else
          if (ownersOf accounts entityId).length = 1 then
            .error "Cannot remove last owner"
          else
            .ok (updateFirst accounts target fun a =>
              { a with dataEntities :=
                  a.dataEntities.filter fun x => x != entityId })

/-- `applyActionToModelOwner` (earlier utility version, lines 870-920):
the same mutation, but its `remove` branch has no last-owner guard. -/
def applyActionToModelOwner (accounts : List LdapAccount) (ownerId : String)
    (command : String) (modelId : String) :
    Except String (List LdapAccount) :=
  if ¬(command = "add" ∨ command = "remove") then
    .error "Invalid command. Use add or remove"
  else
    match accounts.find? (fun a => a.username == ownerId) with
    | none => .error "Invalid LDAP identifier"
    | some _ =>
        if command = "add" then
          .ok (updateFirst accounts ownerId fun a =>
            if ownsEntity a modelId then a
            else { a with dataEntities := a.dataEntities ++ [modelId] })
        else
          .ok (updateFirst accounts ownerId fun a =>
            { a with dataEntities :=
                a.dataEntities.filter fun x => x != modelId })

/-- Claim C7 counterexample: in the earlier `applyActionToModelOwner`, a
`remove` issued while the model has exactly one remaining owner succeeds
and leaves the model with zero owners — no last-owner guard. -/
theorem applyActionToModelOwner_removes_last_owner_cex :
    (ownersOf [⟨"userA", ["m1"]⟩] "m1").length = 1 ∧
    applyActionToModelOwner [⟨"userA", ["m1"]⟩] "userA" "remove" "m1"
      = .ok [⟨"userA", []⟩] ∧
    (ownersOf [⟨"userA", []⟩] "m1").length = 0 := by
  exact ⟨by decide, rfl, by decide⟩

theorem ownersOf_updateFirst_drop_le (accounts : List LdapAccount)
    (target eid : String) (g : LdapAccount → LdapAccount) :
    (ownersOf accounts eid).length
      ≤ (ownersOf (updateFirst accounts target g) eid).length + 1 := by
  induction accounts with
  | nil => simp [updateFirst, ownersOf]
  | cons a rest ih =>
      unfold updateFirst
      by_cases ht : a.username = target
      · rw [if_pos ht]
        unfold ownersOf
        rw [List.filter_cons, List.filter_cons]
        cases h1 : ownsEntity a eid <;> cases h2 : ownsEntity (g a) eid <;>
          simp [ownersOf] <;> omega
      · rw [if_neg ht]
        unfold ownersOf
        rw [List.filter_cons, List.filter_cons]
        unfold ownersOf at ih
        cases h1 : ownsEntity a eid <;> simp [h1] <;> omega

theorem ownersOf_updateFirst_mono (accounts : List LdapAccount)
    (target eid : String) (g : LdapAccount → LdapAccount)
    (hg : ∀ a, ownsEntity a eid = true → ownsEntity (g a) eid = true) :
    (ownersOf accounts eid).length
      ≤ (ownersOf (updateFirst accounts target g) eid).length := by
  induction accounts with
  | nil => simp [updateFirst, ownersOf]
  | cons a rest ih =>
      unfold updateFirst
      by_cases ht : a.username = target
      · rw [if_pos ht]
        unfold ownersOf
        rw [List.filter_cons, List.filter_cons]
        cases h1 : ownsEntity a eid
        · cases h2 : ownsEntity (g a) eid <;> simp <;> omega
        · rw [hg a h1]
          simp
      · rw [if_neg ht]
        unfold ownersOf
        rw [List.filter_cons, List.filter_cons]
        unfold ownersOf at ih
        cases h1 : ownsEntity a eid <;> simp [h1] <;> omega

/-- Claim C7 (amended): `applyActionToEntityOwner` rejects `remove` while
the entity has exactly one owner overall (provided the queried account
exists, so the guard is reached), and any owner mutation it accepts
preserves the invariant that an entity with at least one owner keeps at
least one owner.  (The earlier `applyActionToModelOwner` lacks the
guard.) -/
theorem applyActionToEntityOwner_guard (accounts : List LdapAccount)
    (target entityId : String) :
    ((accounts.find? fun a => a.username == target).isSome = true →
      (ownersOf accounts entityId).length = 1 →
      applyActionToEntityOwner accounts target "remove" entityId
        = .error "Cannot remove last owner") ∧
    (∀ (command : String) (accounts2 : List LdapAccount),
      applyActionToEntityOwner accounts target command entityId
        = .ok accounts2 →
      1 ≤ (ownersOf accounts entityId).length →
      1 ≤ (ownersOf accounts2 entityId).length) := by
  constructor
  · intro hfind hone
    unfold applyActionToEntityOwner
    rw [if_neg (by decide)]
    obtain ⟨a, ha⟩ := Option.isSome_iff_exists.mp hfind
    rw [ha]
    rw [if_neg (by decide), if_pos hone]
  · intro command accounts2 hok hone
    unfold applyActionToEntityOwner at hok
    by_cases hcmd : command = "add" ∨ command = "remove"
    · rw [if_neg (fun hc => hc hcmd)] at hok
      cases hfind : accounts.find? (fun a => a.username == target) with
      | none => rw [hfind] at hok; cases hok
      | some a0 =>
          rw [hfind] at hok
          rcases hcmd with hadd | hrem
          · rw [if_pos hadd] at hok
            have h2 := Except.ok.inj hok
            rw [← h2]
            refine le_trans hone (ownersOf_updateFirst_mono accounts target
              entityId _ ?_)
            intro a howns
            simp [howns]
          · by_cases hadd : command = "add"
            · rw [if_pos hadd] at hok
              have h2 := Except.ok.inj hok
              rw [← h2]
              refine le_trans hone (ownersOf_updateFirst_mono accounts target
                entityId _ ?_)
              intro a howns
              simp only [howns]
              exact howns
            · rw [if_neg hadd] at hok
              by_cases hone2 : (ownersOf accounts entityId).length = 1
              · rw [if_pos hone2] at hok; cases hok
              · rw [if_neg hone2] at hok
                have h2 := Except.ok.inj hok
                rw [← h2]
                have h3 := ownersOf_updateFirst_drop_le accounts target entityId
                  (fun a => { a with dataEntities :=
                    a.dataEntities.filter fun x => x != entityId })
                omega
    · rw [if_pos hcmd] at hok; cases hok

/-- Witness for the amended C7: an entity with a single owner overall;
`remove` against an existing account is rejected with the last-owner
error. -/
theorem applyActionToEntityOwner_guard_witness :
    (([⟨"userA", ["e1"]⟩, ⟨"userB", []⟩] : List LdapAccount).find?
        (fun a => a.username == "userB")).isSome = true ∧
    (ownersOf [⟨"userA", ["e1"]⟩, ⟨"userB", []⟩] "e1").length = 1 ∧
    applyActionToEntityOwner [⟨"userA", ["e1"]⟩, ⟨"userB", []⟩] "userB"
      "remove" "e1" = .error "Cannot remove last owner" := by
  refine ⟨by decide, by decide, ?_⟩
  exact (applyActionToEntityOwner_guard [⟨"userA", ["e1"]⟩, ⟨"userB", []⟩]
    "userB" "e1").1 (by decide) (by decide)

/-- The filter flags of an explore request body. -/
structure ExploreFilters where
  annotatable : Bool
  annotated : Bool
  restricted : Bool
  associated : Bool
deriving DecidableEq, Repr

/-- The session user visible to `explore`.  `ownedData` stands for the id
strings occurring in `JSON.stringify(userData.data)`; `fullname` and
`mail` are taken lowercased, as the source lowercases both sides. -/
structure ExpUserData where
  uid : String
  fullname : String
  mail : String
  ownedData : List String
deriving DecidableEq, Repr

/-- A resolved entity as the entity-search loop of `explore` sees it.
`metadata` is `JSON.stringify(resolved).toLowerCase()`. -/
structure EntityCand where
  eidStr : String
  whitelistEnabled : Bool
  whitelistIds : List String
  annotationKeys : List String
  metadata : String
  ename : String
  dDescription : String
  dLicence : String
deriving DecidableEq, Repr

/-- A pushed entity result: the resolved entity with
`relatedDigitalEntity` projected down to `{description, licence}`. -/
structure EntityHit where
  eidStr : String
  whitelistEnabled : Bool
  ename : String
  relatedDescription : String
  relatedLicence : String
deriving DecidableEq, Repr

/-- `s.includes(pat)`: substring containment. -/
def strContainsM (s pat : String) : Bool :=
  (List.range (s.toList.length + 1)).any fun i =>
    (s.toList.drop i).take pat.toList.length == pat.toList

/-- `userOwned.includes(resolved._id)`: for an anonymous requester
`userOwned` is the empty string, which contains no id. -/
def exploreIsOwner (userData : Option ExpUserData) (e : EntityCand) : Bool :=
  match userData with
  | none => false
  | some u => decide (e.eidStr ∈ u.ownedData)

/-- The whitelist-visibility block of the entity loop (utility.ts lines
618-626): `none` is `continue`, otherwise the computed `isRestricted`. -/
def exploreWhitelistCheck (userData : Option ExpUserData) (e : EntityCand) :
    Option Bool :=
  if e.whitelistEnabled then
    match userData with
    | none => none
    | some u =>
        if !(exploreIsOwner userData e) && !(decide (u.uid ∈ e.whitelistIds))
        then none
        else some true
  else some false

/-- `isAssociated`: the requester's name or mail occurs in the resolved
metadata (both sides lowercased in the source). -/
def exploreIsAssociated (userData : Option ExpUserData) (e : EntityCand) :
    Bool :=
  match userData with
  | none => false
  | some u =>
      strContainsM e.metadata u.fullname || strContainsM e.metadata u.mail

/-- The per-candidate filter chain of the entity-search loop of `explore`
(utility.ts lines 603-648): `none` models `continue`, `some` the pushed
projected result. -/
def entityStep (userData : Option ExpUserData) (filters : ExploreFilters)
    (searchText : String) (e : EntityCand) : Option EntityHit :=
  if filters.annotatable && !(exploreIsOwner userData e) then none
  else if filters.annotated && !(decide (0 < e.annotationKeys.length)) then
    none
  else
    match exploreWhitelistCheck userData e with
    | none => none
    | some isRestricted =>
        if filters.restricted && !isRestricted then none
        else if filters.associated && !(exploreIsAssociated userData e) then
          none
        else if searchText != "" && !(strContainsM e.metadata searchText) then
          none
        else some ⟨e.eidStr, e.whitelistEnabled, e.ename,
          e.dDescription, e.dLicence⟩

/--
The cursor loop shared by both `explore` modes (entity loop, utility.ts
lines 600-648; compilation loop, lines 660-721): `canContinue` is
`(await cursor.hasNext()) && collected.length < limit && types.length > 0`;
each candidate either fails a filter (`continue`) or is pushed.
-/
def exploreScan {α β : Type} (step : α → Option β) (limit : Nat)
    (typesNonempty : Bool) : List α → List β → List β
  | [], acc => acc
  | c :: rest, acc =>
      if acc.length < limit ∧ typesNonempty = true then
        match step c with
        | none => exploreScan step limit typesNonempty rest acc
        | some r => exploreScan step limit typesNonempty rest (acc ++ [r])
      else acc

theorem exploreScan_length_le {α β : Type} (step : α → Option β) (limit : Nat)
    (t : Bool) (cursor : List α) (acc : List β) (hacc : acc.length ≤ limit) :
    (exploreScan step limit t cursor acc).length ≤ limit := by
  induction cursor generalizing acc with
  | nil => simpa [exploreScan] using hacc
  | cons c rest ih =>
      unfold exploreScan
      by_cases hcond : acc.length < limit ∧ t = true
      · rw [if_pos hcond]
        cases step c with
        | none => exact ih acc hacc
        | some r =>
            apply ih
            have := hcond.1
            simp only [List.length_append, List.length_singleton]
            omega
      · rw [if_neg hcond]; exact hacc

/-- Claim C8: with the source's `limit = 30`, the explore scan collects at
most 30 items for any filter chain and cursor contents, and the loop
returns immediately once the collected list has reached the limit, even
with the cursor not yet exhausted. -/
theorem explore_scan_limit {α β : Type} (step : α → Option β) (t : Bool)
    (cursor : List α) :
    (exploreScan step 30 t cursor []).length ≤ 30 ∧
    (∀ (c : α) (rest : List α) (acc : List β), 30 ≤ acc.length →
      exploreScan step 30 t (c :: rest) acc = acc) := by
  constructor
  · exact exploreScan_length_le step 30 t cursor [] (by simp)
  · intro c rest acc hfull
    unfold exploreScan
    rw [if_neg (fun hc => absurd hc.1 (by omega))]

/-- Witness for C8: a scan over a concrete cursor stays within the limit,
and a full accumulator stops the loop at once. -/
theorem explore_scan_limit_witness :
    (exploreScan (fun n : Nat => some n) 30 true [0, 1, 2] []).length ≤ 30 ∧
    exploreScan (fun n : Nat => some n) 30 true [0]
      (List.replicate 30 7) = List.replicate 30 7 := by
  refine ⟨(explore_scan_limit (fun n : Nat => some n) true [0, 1, 2]).1, ?_⟩
  exact (explore_scan_limit (fun n : Nat => some n) true
    ([] : List Nat)).2 0 [] (List.replicate 30 7) (by simp)

theorem exploreScan_mem {α β : Type} (step : α → Option β) (limit : Nat)
    (t : Bool) (cursor : List α) (acc : List β) (r : β)
    (hr : r ∈ exploreScan step limit t cursor acc) :
    r ∈ acc ∨ ∃ c, step c = some r := by
  induction cursor generalizing acc with
  | nil =>
      left
      simpa [exploreScan] using hr
  | cons c rest ih =>
      unfold exploreScan at hr
      by_cases hcond : acc.length < limit ∧ t = true
      · rw [if_pos hcond] at hr
        cases hstep : step c with
        | none => rw [hstep] at hr; exact ih acc hr
        | some x =>
            rw [hstep] at hr
            rcases ih _ hr with hmem | hex
            · rcases List.mem_append.mp hmem with h1 | h2
              · exact Or.inl h1
              · right
                exact ⟨c, by rw [hstep, List.mem_singleton.mp h2]⟩
            · exact Or.inr hex
      · rw [if_neg hcond] at hr
        exact Or.inl hr

theorem exploreWhitelistCheck_anonymous (e : EntityCand)
    (hwl : e.whitelistEnabled = true) :
    exploreWhitelistCheck none e = none := by
  simp [exploreWhitelistCheck, hwl]

/-- A candidate accepted by the anonymous entity filter chain has its
whitelist disabled. -/
theorem entityStep_anonymous (filters : ExploreFilters) (searchText : String)
    (e : EntityCand) (r : EntityHit)
    (h : entityStep none filters searchText e = some r) :
    r.whitelistEnabled = false := by
  unfold entityStep at h
  by_cases h1 : (filters.annotatable && !(exploreIsOwner none e)) = true
  · rw [if_pos h1] at h; cases h
  · rw [if_neg h1] at h
    by_cases h2 :
        (filters.annotated && !(decide (0 < e.annotationKeys.length))) = true
    · rw [if_pos h2] at h; cases h
    · rw [if_neg h2] at h
      cases hchk : exploreWhitelistCheck none e with
      | none => rw [hchk] at h; cases h
      | some isRestricted =>
          rw [hchk] at h
          dsimp only at h
          by_cases h3 : (filters.restricted && !isRestricted) = true
          · rw [if_pos h3] at h; cases h
          · rw [if_neg h3] at h
            by_cases h4 :
                (filters.associated && !(exploreIsAssociated none e)) = true
            · rw [if_pos h4] at h; cases h
            · rw [if_neg h4] at h
              by_cases h5 : (searchText != ""
                  && !(strContainsM e.metadata searchText)) = true
              · rw [if_pos h5] at h; cases h
              · rw [if_neg h5] at h
                cases h
                by_cases hwl : e.whitelistEnabled
                · rw [exploreWhitelistCheck_anonymous e hwl] at hchk
                  cases hchk
                · simpa using hwl

/-- Claim C10: in entity-search mode, a request without a session user
never yields an entity whose whitelist is enabled — whatever the filter
flags, the search text and the cursor contents. -/
theorem explore_anonymous_whitelist (filters : ExploreFilters)
    (searchText : String) (t : Bool) (cursor : List EntityCand)
    (r : EntityHit)
    (hr : r ∈ exploreScan (entityStep none filters searchText) 30 t cursor []) :
    r.whitelistEnabled = false := by
  rcases exploreScan_mem (entityStep none filters searchText) 30 t cursor [] r
      hr with hmem | ⟨c, hc⟩
  · exact absurd hmem (List.not_mem_nil r)
  · exact entityStep_anonymous filters searchText c r hc

/-- Witness for C10: a concrete anonymous scan accepting one candidate;
the accepted hit has its whitelist disabled. -/
theorem explore_anonymous_whitelist_witness :
    ((⟨"e1", false, "n", "d", "l"⟩ : EntityHit) ∈
      exploreScan (entityStep none ⟨false, false, false, false⟩ "") 30 true
        [⟨"e1", false, [], [], "m", "n", "d", "l"⟩] []) ∧
    (⟨"e1", false, "n", "d", "l"⟩ : EntityHit).whitelistEnabled = false := by
  have hmem0 : (⟨"e1", false, "n", "d", "l"⟩ : EntityHit) ∈
      exploreScan (entityStep none ⟨false, false, false, false⟩ "") 30 true
        [⟨"e1", false, [], [], "m", "n", "d", "l"⟩] [] := by decide
  exact ⟨hmem0, explore_anonymous_whitelist ⟨false, false, false, false⟩ ""
    true [⟨"e1", false, [], [], "m", "n", "d", "l"⟩] _ hmem0⟩

end Server
